import Mathlib

/-!
Shallow embedding of `temporal-hijri` (src/src/calendars/HijriCalendar.ts).

The repository implements the TC39 Temporal Calendar Protocol for Hijri
calendars on top of a pluggable conversion engine (`hijri-core`, an external
peer dependency).  `Temporal.PlainDate` is modelled by its ISO calendar
fields (year, month, day) as integers; the JS `Date` handed to the engine is
built from exactly those fields (local wall-clock construction in
`toHijri`, UTC extraction in `fromHijri`), so the engine is modelled as
functions directly on the field triples.  Fallible conversions return
`Except String` mirroring the thrown `RangeError` and its message.
-/

/-- ISO (Gregorian) calendar date: the fields of a `Temporal.PlainDate`. -/
structure PlainDate where
  year : Int
  month : Int
  day : Int
deriving DecidableEq, Repr

/-- Hijri coordinate `{hy, hm, hd}` as returned by the engine. -/
structure HijriDate where
  hy : Int
  hm : Int
  hd : Int
deriving DecidableEq, Repr

/-- The injected `CalendarEngine` capability set from `hijri-core`:
conversion in both directions (absence = out of the engine's domain) and a
month-length function.  External collaborator; modelled abstractly. -/
structure CalendarEngine where
  id : String
  toHijri : PlainDate → Option HijriDate
  toGregorian : Int → Int → Int → Option PlainDate
  daysInMonth : Int → Int → Int

/-- `Temporal.Duration`'s date components (years, months, weeks, days). -/
structure Duration where
  years : Int
  months : Int
  weeks : Int
  days : Int
deriving DecidableEq, Repr

/-- The `overflow` option accepted by `dateAdd` and the fields constructors. -/
inductive Overflow where
  | constrain
  | reject
deriving DecidableEq, Repr

/-- `largestUnit` values accepted by `dateUntil` (type `DateUnit` in the source). -/
inductive DateUnit where
  | year
  | years
  | month
  | months
  | week
  | weeks
  | day
  | days
  | auto
deriving DecidableEq, Repr

namespace HijriCalendar

/-- `this.id = `hijri-${engine.id}`` (constructor). -/
def calendarId (e : CalendarEngine) : String :=
  "hijri-" ++ e.id

/-- Rendering of a `PlainDate` used in the `toHijri` error message
(`date.toString()` of the ISO date). -/
def dateToString (d : PlainDate) : String :=
  toString d.year ++ "-" ++ toString d.month ++ "-" ++ toString d.day

/-- `HijriCalendar.toHijri`: delegate to the engine; throw a `RangeError`
naming the calendar and the date when the engine reports absence. -/
def toHijri (e : CalendarEngine) (date : PlainDate) : Except String HijriDate :=
  match e.toHijri date with
  | some h => .ok h
  | none =>
      .error ("Date " ++ dateToString date ++ " is out of range for the "
        ++ calendarId e ++ " calendar")

/-- `HijriCalendar.fromHijri`: delegate to `engine.toGregorian`; throw a
`RangeError` naming the calendar and the Hijri coordinate on absence. -/
def fromHijri (e : CalendarEngine) (hy hm hd : Int) : Except String PlainDate :=
  match e.toGregorian hy hm hd with
  | some g => .ok g
  | none =>
      .error ("Hijri date " ++ toString hy ++ "/" ++ toString hm ++ "/"
        ++ toString hd ++ " is out of range for the " ++ calendarId e ++ " calendar")

end HijriCalendar

/-! Model of the external ISO (proleptic Gregorian) date arithmetic supplied
by the Temporal polyfill: epoch-day conversion (days since 1970-01-01),
day addition, and the ISO weekday (Monday = 1 .. Sunday = 7).  The civil
calendar algorithms are the standard era/year-of-era decomposition. -/

/-- Days from 1970-01-01 to the civil date `y-m-d` (proleptic Gregorian). -/
def daysFromCivil (y m d : Int) : Int :=
  let yAdj := if m ≤ 2 then y - 1 else y
  let era := yAdj.fdiv 400
  let yoe := yAdj - era * 400
  let mp := (m + 9).emod 12
  let doy := (153 * mp + 2).fdiv 5 + d - 1
  let doe := yoe * 365 + yoe.fdiv 4 - yoe.fdiv 100 + doy
  era * 146097 + doe - 719468

/-- Civil date from a count of days since 1970-01-01 (proleptic Gregorian). -/
def civilFromDays (z0 : Int) : PlainDate :=
  let z := z0 + 719468
  let era := z.fdiv 146097
  let doe := z - era * 146097
  let yoe := (doe - doe.fdiv 1460 + doe.fdiv 36524 - doe.fdiv 146096).fdiv 365
  let y := yoe + era * 400
  let doy := doe - (365 * yoe + yoe.fdiv 4 - yoe.fdiv 100)
  let mp := (5 * doy + 2).fdiv 153
  let d := doy - (153 * mp + 2).fdiv 5 + 1
  let m := mp + (if mp < 10 then 3 else -9)
  ⟨y + (if m ≤ 2 then 1 else 0), m, d⟩

/-- `PlainDate.add({days})` of the external ISO calendar: exact day offset. -/
def isoAddDays (d : PlainDate) (n : Int) : PlainDate :=
  civilFromDays (daysFromCivil d.year d.month d.day + n)

/-- `PlainDate.dayOfWeek` of the external ISO calendar:
ISO weekday, Monday = 1 .. Sunday = 7 (1970-01-01 was a Thursday). -/
def isoDayOfWeek (d : PlainDate) : Int :=
  (daysFromCivil d.year d.month d.day + 3).emod 7 + 1

namespace HijriCalendar

/-- `HijriCalendar.year`. -/
def year (e : CalendarEngine) (date : PlainDate) : Except String Int :=
  (toHijri e date).map (fun h => h.hy)

/-- `HijriCalendar.month`. -/
def month (e : CalendarEngine) (date : PlainDate) : Except String Int :=
  (toHijri e date).map (fun h => h.hm)

/-- `HijriCalendar.day`. -/
def day (e : CalendarEngine) (date : PlainDate) : Except String Int :=
  (toHijri e date).map (fun h => h.hd)

/-- `HijriCalendar.daysInMonth`. -/
def daysInMonth (e : CalendarEngine) (date : PlainDate) : Except String Int :=
  (toHijri e date).map (fun h => e.daysInMonth h.hy h.hm)

/-- The accumulation `total += engine.daysInMonth(hy, m)` for `m = 1 .. n`,
shared by `daysInYear` (n = 12) and `dayOfYear` (n = hm - 1). -/
def monthsSum (e : CalendarEngine) (hy : Int) : Nat → Int
  | 0 => 0
  | n + 1 => monthsSum e hy n + e.daysInMonth hy ((n : Int) + 1)

/-- `HijriCalendar.daysInYear`: sum of the 12 month lengths of the Hijri year. -/
def daysInYear (e : CalendarEngine) (date : PlainDate) : Except String Int :=
  (toHijri e date).map (fun h => monthsSum e h.hy 12)

/-- `HijriCalendar.monthsInYear`: constant 12, the engine is never consulted. -/
def monthsInYear (_e : CalendarEngine) (_date : PlainDate) : Int :=
  12

/-- `HijriCalendar.inLeapYear`: `daysInYear === 355`. -/
def inLeapYear (e : CalendarEngine) (date : PlainDate) : Except String Bool :=
  (daysInYear e date).map (fun n => n == 355)

/-- `HijriCalendar.dayOfWeek`: `date.dayOfWeek` of the ISO date itself,
the engine is never consulted. -/
def dayOfWeek (_e : CalendarEngine) (date : PlainDate) : Int :=
  isoDayOfWeek date

/-- `HijriCalendar.dayOfYear`: day-of-month plus the lengths of the months
before the current one. -/
def dayOfYear (e : CalendarEngine) (date : PlainDate) : Except String Int :=
  (toHijri e date).map (fun h => h.hd + monthsSum e h.hy (h.hm - 1).toNat)

/-- `HijriCalendar.weekOfYear`: `Math.ceil(dayOfYear / 7)`. -/
def weekOfYear (e : CalendarEngine) (date : PlainDate) : Except String Int :=
  (dayOfYear e date).map (fun n => (n + 6).fdiv 7)

/-- `HijriCalendar.daysInWeek`: constant 7, the engine is never consulted. -/
def daysInWeek (_e : CalendarEngine) (_date : PlainDate) : Int :=
  7

/-- The first normalization loop of `dateAdd`:
`while (newHm > 12) { newHm -= 12; newHy++; }`. -/
def normUp (hy hm : Int) : Int × Int :=
  if 12 < hm then normUp (hy + 1) (hm - 12) else (hy, hm)
termination_by (hm - 12).toNat
decreasing_by omega

/-- The second normalization loop of `dateAdd`:
`while (newHm < 1) { newHm += 12; newHy--; }`. -/
def normDown (hy hm : Int) : Int × Int :=
  if hm < 1 then normDown (hy - 1) (hm + 12) else (hy, hm)
termination_by (1 - hm).toNat
decreasing_by omega

/-- Both normalization loops of `dateAdd`, run in source order. -/
def normalizeYm (hy hm : Int) : Int × Int :=
  let p := normUp hy hm
  normDown p.1 p.2

/-- `HijriCalendar.dateAdd`: years/months applied in Hijri space with month
normalization and day clamping, then days/weeks applied in ISO space. -/
def dateAdd (e : CalendarEngine) (date : PlainDate) (dur : Duration)
    (_options : Option Overflow) : Except String PlainDate :=
  match toHijri e date with
  | .error s => .error s
  | .ok h =>
      let ym := normalizeYm (h.hy + dur.years) (h.hm + dur.months)
      let maxDay := e.daysInMonth ym.1 ym.2
      let clampedDay := min h.hd maxDay
      match fromHijri e ym.1 ym.2 clampedDay with
      | .error s => .error s
      | .ok intermediate =>
          let dayDelta := dur.days + dur.weeks * 7
          .ok (if dayDelta ≠ 0 then isoAddDays intermediate dayDelta else intermediate)

/-- Model of the external `one.until(two, largestUnit days)` on ISO dates. -/
def isoUntilDays (one two : PlainDate) : Duration :=
  ⟨0, 0, 0, daysFromCivil two.year two.month two.day
    - daysFromCivil one.year one.month one.day⟩

/-- Model of the external `one.until(two, largestUnit weeks)` on ISO dates
(balance toward zero, as Temporal durations keep a uniform sign). -/
def isoUntilWeeks (one two : PlainDate) : Duration :=
  let diff := daysFromCivil two.year two.month two.day
    - daysFromCivil one.year one.month one.day
  ⟨0, 0, diff.tdiv 7, diff.tmod 7⟩

/-- `HijriCalendar.dateUntil`: Hijri-space component differences with
day/month borrows for years/months, ISO delegation for weeks/days. -/
def dateUntil (e : CalendarEngine) (one two : PlainDate)
    (options : Option DateUnit) : Except String Duration :=
  let largestUnit := options.getD .days
  if largestUnit = .years ∨ largestUnit = .year then
    match toHijri e one with
    | .error s => .error s
    | .ok h1 =>
        match toHijri e two with
        | .error s => .error s
        | .ok h2 =>
            let years := h2.hy - h1.hy
            let months := h2.hm - h1.hm
            let days := h2.hd - h1.hd
            let md : Int × Int :=
              if days < 0 then
                let borrow :=
                  if h2.hm - 1 < 1 then (h2.hy - 1, (12 : Int)) else (h2.hy, h2.hm - 1)
                (months - 1, days + e.daysInMonth borrow.1 borrow.2)
              else (months, days)
            let ym : Int × Int :=
              if md.1 < 0 then (years - 1, md.1 + 12) else (years, md.1)
            .ok ⟨ym.1, ym.2, 0, md.2⟩
  else if largestUnit = .months ∨ largestUnit = .month then
    match toHijri e one with
    | .error s => .error s
    | .ok h1 =>
        match toHijri e two with
        | .error s => .error s
        | .ok h2 =>
            let years := h2.hy - h1.hy
            let months := h2.hm - h1.hm
            let days := h2.hd - h1.hd
            let md : Int × Int :=
              if days < 0 then
                let borrow :=
                  if h2.hm - 1 < 1 then (h2.hy - 1, (12 : Int)) else (h2.hy, h2.hm - 1)
                (months - 1, days + e.daysInMonth borrow.1 borrow.2)
              else (months, days)
            let ym : Int × Int :=
              if md.1 < 0 then (years - 1, md.1 + 12) else (years, md.1)
            .ok ⟨0, ym.1 * 12 + ym.2, 0, md.2⟩
  else if largestUnit = .weeks ∨ largestUnit = .week then
    .ok (isoUntilWeeks one two)
  else
    .ok (isoUntilDays one two)

/-- The engine round-trip contract of the spec at one date: when the engine
converts the solar date `d` to a lunar coordinate, converting that coordinate
back yields `d` again.  (Bounded engines may report absence; that case puts
`d` outside the supported domain and the contract says nothing.) -/
def roundTripsAt (e : CalendarEngine) (d : PlainDate) : Bool :=
  match e.toHijri d with
  | some h => decide (e.toGregorian h.hy h.hm h.hd = some d)
  | none => true

end HijriCalendar

/-- A small concrete engine used to instantiate the theorems: four dates
around Ramadan/Shawwal 1444 AH, with odd months 30 days long and even months
29 days long (so the year has 354 days and month 10 is shorter than month 9). -/
def tinyEngine : CalendarEngine where
  id := "uaq"
  toHijri := fun d =>
    if d = ⟨2023, 3, 23⟩ then some ⟨1444, 9, 1⟩
    else if d = ⟨2023, 4, 21⟩ then some ⟨1444, 9, 30⟩
    else if d = ⟨2023, 4, 22⟩ then some ⟨1444, 10, 1⟩
    else if d = ⟨2023, 5, 20⟩ then some ⟨1444, 10, 29⟩
    else none
  toGregorian := fun hy hm hd =>
    if hy = 1444 ∧ hm = 9 ∧ hd = 1 then some ⟨2023, 3, 23⟩
    else if hy = 1444 ∧ hm = 9 ∧ hd = 30 then some ⟨2023, 4, 21⟩
    else if hy = 1444 ∧ hm = 10 ∧ hd = 1 then some ⟨2023, 4, 22⟩
    else if hy = 1444 ∧ hm = 10 ∧ hd = 29 then some ⟨2023, 5, 20⟩
    else none
  daysInMonth := fun _ hm => if hm % 2 = 1 then 30 else 29

/-- An engine whose months all have 29 days.  Each month length satisfies the
29-or-30 contract, yet every year sums to 12 * 29 = 348 days. -/
def allShortEngine : CalendarEngine where
  id := "short"
  toHijri := fun d => if d = ⟨2023, 3, 23⟩ then some ⟨1444, 9, 1⟩ else none
  toGregorian := fun _ _ _ => none
  daysInMonth := fun _ _ => 29

/-! Helper lemmas. -/

namespace HijriCalendar

theorem normUp_snd_le (hy hm : Int) : (normUp hy hm).2 ≤ 12 := by
  induction hy, hm using normUp.induct with
  | case1 hy hm h ih => rw [normUp, if_pos h]; exact ih
  | case2 hy hm h => rw [normUp, if_neg h]; simp; omega

theorem normUp_total (hy hm : Int) :
    12 * (normUp hy hm).1 + (normUp hy hm).2 = 12 * hy + hm := by
  induction hy, hm using normUp.induct with
  | case1 hy hm h ih => rw [normUp, if_pos h]; omega
  | case2 hy hm h => rw [normUp, if_neg h]

theorem normUp_eq_self (hy hm : Int) (h : hm ≤ 12) : normUp hy hm = (hy, hm) := by
  rw [normUp, if_neg (by omega)]

theorem normDown_snd_ge (hy hm : Int) : 1 ≤ (normDown hy hm).2 := by
  induction hy, hm using normDown.induct with
  | case1 hy hm h ih => rw [normDown, if_pos h]; exact ih
  | case2 hy hm h => rw [normDown, if_neg h]; simp; omega

theorem normDown_total (hy hm : Int) :
    12 * (normDown hy hm).1 + (normDown hy hm).2 = 12 * hy + hm := by
  induction hy, hm using normDown.induct with
  | case1 hy hm h ih => rw [normDown, if_pos h]; omega
  | case2 hy hm h => rw [normDown, if_neg h]

theorem normDown_snd_le (hy hm : Int) (h : hm ≤ 12) : (normDown hy hm).2 ≤ 12 := by
  induction hy, hm using normDown.induct with
  | case1 hy hm hc ih => rw [normDown, if_pos hc]; exact ih (by omega)
  | case2 hy hm hc => rw [normDown, if_neg hc]; simpa using h

theorem normDown_eq_self (hy hm : Int) (h : 1 ≤ hm) : normDown hy hm = (hy, hm) := by
  rw [normDown, if_neg (by omega)]

end HijriCalendar

namespace HijriCalendar

theorem normalizeYm_snd_ge (hy hm : Int) : 1 ≤ (normalizeYm hy hm).2 := by
  unfold normalizeYm
  exact normDown_snd_ge _ _

theorem normalizeYm_snd_le (hy hm : Int) : (normalizeYm hy hm).2 ≤ 12 := by
  unfold normalizeYm
  exact normDown_snd_le _ _ (normUp_snd_le hy hm)

theorem normalizeYm_total (hy hm : Int) :
    12 * (normalizeYm hy hm).1 + (normalizeYm hy hm).2 = 12 * hy + hm := by
  unfold normalizeYm
  rw [normDown_total]
  exact normUp_total hy hm

theorem normalizeYm_eq_self (hy hm : Int) (h1 : 1 ≤ hm) (h2 : hm ≤ 12) :
    normalizeYm hy hm = (hy, hm) := by
  unfold normalizeYm
  rw [normUp_eq_self hy hm h2]
  exact normDown_eq_self hy hm h1

theorem monthsSum_le (e : CalendarEngine) (hy : Int) (a : Nat) :
    ∀ b : Nat, a ≤ b →
      (∀ m : Nat, m < b → 0 ≤ e.daysInMonth hy ((m : Int) + 1)) →
      monthsSum e hy a ≤ monthsSum e hy b := by
  intro b
  induction b with
  | zero =>
      intro hab _
      have ha : a = 0 := Nat.le_zero.mp hab
      subst ha
      exact le_refl _
  | succ b ih =>
      intro hab hpos
      rcases Nat.eq_or_lt_of_le hab with heq | hlt
      · subst heq
        exact le_refl _
      · have ha : a ≤ b := Nat.lt_succ_iff.mp hlt
        have h1 := ih ha (fun m hm => hpos m (Nat.lt_succ_of_lt hm))
        have h2 : 0 ≤ e.daysInMonth hy ((b : Int) + 1) := hpos b (Nat.lt_succ_self b)
        have h3 : monthsSum e hy (b + 1) = monthsSum e hy b + e.daysInMonth hy ((b : Int) + 1) := rfl
        omega

theorem monthsSum_bounds (e : CalendarEngine) (hy : Int) :
    ∀ n : Nat,
      (∀ m : Nat, m < n →
        e.daysInMonth hy ((m : Int) + 1) = 29 ∨ e.daysInMonth hy ((m : Int) + 1) = 30) →
      29 * (n : Int) ≤ monthsSum e hy n ∧ monthsSum e hy n ≤ 30 * (n : Int) := by
  intro n
  induction n with
  | zero => intro _; simp [monthsSum]
  | succ n ih =>
      intro hlen
      have h1 := ih (fun m hm => hlen m (Nat.lt_succ_of_lt hm))
      have h2 := hlen n (Nat.lt_succ_self n)
      have h3 : monthsSum e hy (n + 1) = monthsSum e hy n + e.daysInMonth hy ((n : Int) + 1) := rfl
      push_cast
      push_cast at h1
      omega

end HijriCalendar

/-! Claim theorems. -/

namespace HijriCalendar

/-- C3: `dateAdd`'s month-normalization step (the two `while` loops over
`newHm`/`newHy`, embedded as the total function `normalizeYm`, whose
termination is part of its definition) maps the raw target
`(y + duration.years, m + duration.months)` to a pair whose month lies in
`[1, 12]` and whose total month count `12 * y' + m'` is preserved, for
duration components of any magnitude. -/
theorem dateAdd_month_normalization_c3 (hy hm dy dm : Int) :
    1 ≤ (normalizeYm (hy + dy) (hm + dm)).2 ∧
      (normalizeYm (hy + dy) (hm + dm)).2 ≤ 12 ∧
      12 * (normalizeYm (hy + dy) (hm + dm)).1 + (normalizeYm (hy + dy) (hm + dm)).2
        = 12 * (hy + dy) + (hm + dm) :=
  ⟨normalizeYm_snd_ge _ _, normalizeYm_snd_le _ _, normalizeYm_total _ _⟩

/-- C9: the `overflow` option has no influence on `dateAdd`: requesting
`reject`, requesting `constrain`, and passing no options at all produce the
same result (a `reject` request resolves as constrain/clamp, never a
failure of its own). -/
theorem dateAdd_overflow_irrelevant_c9 (e : CalendarEngine) (d : PlainDate) (dur : Duration) :
    dateAdd e d dur (some .reject) = dateAdd e d dur (some .constrain) ∧
      dateAdd e d dur (some .reject) = dateAdd e d dur none :=
  ⟨rfl, rfl⟩

/-- C10: `dayOfWeek`, `monthsInYear` and `daysInWeek` never consult the
engine: for every solar date (in or out of the engine's domain) they return
the ISO weekday, 12 and 7, totally (no `OutOfRange` is possible — their
types are plain integers, not fallible results), and their values do not
depend on the engine; by contrast, the accessor `year` does fail when the
engine reports absence. -/
theorem engine_free_accessors_c10 (e e' : CalendarEngine) (d : PlainDate) :
    dayOfWeek e d = isoDayOfWeek d ∧
      monthsInYear e d = 12 ∧
      daysInWeek e d = 7 ∧
      dayOfWeek e d = dayOfWeek e' d ∧
      monthsInYear e d = monthsInYear e' d ∧
      daysInWeek e d = daysInWeek e' d ∧
      (e.toHijri d = none → (year e d).isOk = false) := by
  refine ⟨rfl, rfl, rfl, rfl, rfl, rfl, fun h => ?_⟩
  simp [year, toHijri, h, Except.map, Except.isOk, Except.toBool]

/-- C8: `toHijri` and `fromHijri` produce an `OutOfRange` error exactly when
the engine reports absence for the requested conversion; the error message
carries the calendar identity (`hijri-` plus the engine id) and the
offending date/coordinate; on success the engine's result is returned
unchanged, and no other outcome exists. -/
theorem bridge_out_of_range_c8 (e : CalendarEngine) (d : PlainDate) (hy hm hd : Int) :
    ((toHijri e d).isOk = (e.toHijri d).isSome) ∧
      (∀ h : HijriDate, e.toHijri d = some h → toHijri e d = .ok h) ∧
      (e.toHijri d = none →
        toHijri e d = .error ("Date " ++ dateToString d
          ++ " is out of range for the " ++ ("hijri-" ++ e.id) ++ " calendar")) ∧
      ((fromHijri e hy hm hd).isOk = (e.toGregorian hy hm hd).isSome) ∧
      (∀ g : PlainDate, e.toGregorian hy hm hd = some g → fromHijri e hy hm hd = .ok g) ∧
      (e.toGregorian hy hm hd = none →
        fromHijri e hy hm hd = .error ("Hijri date " ++ toString hy ++ "/" ++ toString hm
          ++ "/" ++ toString hd ++ " is out of range for the "
          ++ ("hijri-" ++ e.id) ++ " calendar")) := by
  refine ⟨?_, ?_, ?_, ?_, ?_, ?_⟩
  · cases hE : e.toHijri d <;>
      simp [toHijri, hE, Except.isOk, Except.toBool]
  · intro h hE
    simp [toHijri, hE]
  · intro hE
    simp [toHijri, hE, calendarId]
  · cases hG : e.toGregorian hy hm hd <;>
      simp [fromHijri, hG, Except.isOk, Except.toBool]
  · intro g hG
    simp [fromHijri, hG]
  · intro hG
    simp [fromHijri, hG, calendarId]

end HijriCalendar

namespace HijriCalendar

theorem toHijri_ok_engine (e : CalendarEngine) (d : PlainDate) (h : HijriDate)
    (hc : toHijri e d = .ok h) : e.toHijri d = some h := by
  revert hc
  unfold toHijri
  cases hE : e.toHijri d <;> simp

theorem roundTripsAt_toGregorian (e : CalendarEngine) (d : PlainDate) (h : HijriDate)
    (rt : roundTripsAt e d = true) (hE : e.toHijri d = some h) :
    e.toGregorian h.hy h.hm h.hd = some d := by
  unfold roundTripsAt at rt
  rw [hE] at rt
  exact of_decide_eq_true rt

/-- C1: whenever the injected engine satisfies its round-trip contract at a
solar date (the spec's "within the engine's supported domain"), converting
with `toHijri` and back with `fromHijri` yields the original date, and the
conversion — a pure function, hence deterministic — is injective: two
in-domain solar dates with the same lunar coordinate are equal. -/
theorem bridge_roundtrip_injective_c1 (e : CalendarEngine) (d1 d2 : PlainDate)
    (h1 h2 : HijriDate)
    (rt1 : roundTripsAt e d1 = true) (rt2 : roundTripsAt e d2 = true)
    (hc1 : toHijri e d1 = .ok h1) (hc2 : toHijri e d2 = .ok h2) :
    fromHijri e h1.hy h1.hm h1.hd = .ok d1 ∧ (h1 = h2 → d1 = d2) := by
  have e1 : e.toHijri d1 = some h1 := toHijri_ok_engine e d1 h1 hc1
  have e2 : e.toHijri d2 = some h2 := toHijri_ok_engine e d2 h2 hc2
  have g1 : e.toGregorian h1.hy h1.hm h1.hd = some d1 :=
    roundTripsAt_toGregorian e d1 h1 rt1 e1
  refine ⟨?_, ?_⟩
  · unfold fromHijri
    rw [g1]
  · intro hEq
    subst hEq
    have g2 : e.toGregorian h1.hy h1.hm h1.hd = some d2 :=
      roundTripsAt_toGregorian e d2 h1 rt2 e2
    rw [g1] at g2
    exact Option.some.inj g2

/-- Witness for C1 at `tinyEngine`: 2023-03-23 ↔ 1444-09-01 AH round-trips,
and injectivity instantiated at the two distinct dates 2023-03-23 and
2023-04-22 (lunar 1444-09-01 and 1444-10-01). -/
theorem bridge_roundtrip_injective_c1_witness :
    fromHijri tinyEngine (1444 : Int) 9 1 = .ok ⟨2023, 3, 23⟩ ∧
      ((⟨1444, 9, 1⟩ : HijriDate) = ⟨1444, 10, 1⟩ →
        (⟨2023, 3, 23⟩ : PlainDate) = ⟨2023, 4, 22⟩) :=
  bridge_roundtrip_injective_c1 tinyEngine ⟨2023, 3, 23⟩ ⟨2023, 4, 22⟩
    ⟨1444, 9, 1⟩ ⟨1444, 10, 1⟩ (by decide) (by decide) (by rfl) (by rfl)

end HijriCalendar

namespace HijriCalendar

/-- C2: for an in-domain origin with lunar coordinate `h` and any duration,
`dateAdd` clamps the day before converting back: the coordinate handed to
`fromHijri` is the normalized target `(y', m')` with day
`min(d, engine.daysInMonth(y', m'))`; the clamped day never exceeds the
target month's length, equals the target month's last valid day whenever the
origin day overflows it (never day 1 of a following month, and the clamp
itself never fails), and is the unchanged origin day otherwise. -/
theorem dateAdd_clamps_day_c2 (e : CalendarEngine) (d : PlainDate) (dur : Duration)
    (o : Option Overflow) (h : HijriDate) (ht : toHijri e d = .ok h) :
    dateAdd e d dur o =
      (fromHijri e (normalizeYm (h.hy + dur.years) (h.hm + dur.months)).1
          (normalizeYm (h.hy + dur.years) (h.hm + dur.months)).2
          (min h.hd
            (e.daysInMonth (normalizeYm (h.hy + dur.years) (h.hm + dur.months)).1
              (normalizeYm (h.hy + dur.years) (h.hm + dur.months)).2))).map
        (fun i =>
          if dur.days + dur.weeks * 7 ≠ 0 then isoAddDays i (dur.days + dur.weeks * 7)
          else i) ∧
    min h.hd
        (e.daysInMonth (normalizeYm (h.hy + dur.years) (h.hm + dur.months)).1
          (normalizeYm (h.hy + dur.years) (h.hm + dur.months)).2) ≤
      e.daysInMonth (normalizeYm (h.hy + dur.years) (h.hm + dur.months)).1
        (normalizeYm (h.hy + dur.years) (h.hm + dur.months)).2 ∧
    (e.daysInMonth (normalizeYm (h.hy + dur.years) (h.hm + dur.months)).1
        (normalizeYm (h.hy + dur.years) (h.hm + dur.months)).2 < h.hd →
      min h.hd
          (e.daysInMonth (normalizeYm (h.hy + dur.years) (h.hm + dur.months)).1
            (normalizeYm (h.hy + dur.years) (h.hm + dur.months)).2) =
        e.daysInMonth (normalizeYm (h.hy + dur.years) (h.hm + dur.months)).1
          (normalizeYm (h.hy + dur.years) (h.hm + dur.months)).2) ∧
    (h.hd ≤ e.daysInMonth (normalizeYm (h.hy + dur.years) (h.hm + dur.months)).1
        (normalizeYm (h.hy + dur.years) (h.hm + dur.months)).2 →
      min h.hd
          (e.daysInMonth (normalizeYm (h.hy + dur.years) (h.hm + dur.months)).1
            (normalizeYm (h.hy + dur.years) (h.hm + dur.months)).2) = h.hd) := by
  refine ⟨?_, min_le_right _ _, fun hlt => min_eq_right (le_of_lt hlt),
    fun hle => min_eq_left hle⟩
  unfold dateAdd
  rw [ht]
  dsimp only
  cases hF : fromHijri e (normalizeYm (h.hy + dur.years) (h.hm + dur.months)).1
      (normalizeYm (h.hy + dur.years) (h.hm + dur.months)).2
      (min h.hd
        (e.daysInMonth (normalizeYm (h.hy + dur.years) (h.hm + dur.months)).1
          (normalizeYm (h.hy + dur.years) (h.hm + dur.months)).2)) with
  | error s => simp [Except.map]
  | ok i => simp [Except.map]

/-- Witness for C2: at `tinyEngine`, 2023-04-21 is lunar 1444-09-30 (a
30-day month); adding one month targets month 10, which has 29 days, so the
day clamps to 29 and the result is 2023-05-20 (lunar 1444-10-29), not day 1
of month 11 and not an error. -/
theorem dateAdd_clamps_day_c2_witness :
    dateAdd tinyEngine ⟨2023, 4, 21⟩ ⟨0, 1, 0, 0⟩ none = .ok ⟨2023, 5, 20⟩ := by
  have hc := dateAdd_clamps_day_c2 tinyEngine ⟨2023, 4, 21⟩ ⟨0, 1, 0, 0⟩ none
    ⟨1444, 9, 30⟩ (by rfl)
  rw [hc.1]
  simp [normalizeYm, normUp, normDown, fromHijri, tinyEngine, Except.map]

/-- C7: adding the zero duration is the identity on every in-domain solar
date whose lunar coordinate respects the month range and the day-length
invariant, given the engine round-trip contract at that date. -/
theorem dateAdd_zero_identity_c7 (e : CalendarEngine) (d : PlainDate) (h : HijriDate)
    (ht : toHijri e d = .ok h) (rt : roundTripsAt e d = true)
    (hm1 : 1 ≤ h.hm) (hm2 : h.hm ≤ 12) (hd2 : h.hd ≤ e.daysInMonth h.hy h.hm) :
    dateAdd e d ⟨0, 0, 0, 0⟩ none = .ok d := by
  have e1 : e.toHijri d = some h := toHijri_ok_engine e d h ht
  have g1 : e.toGregorian h.hy h.hm h.hd = some d := roundTripsAt_toGregorian e d h rt e1
  unfold dateAdd
  rw [ht]
  dsimp only
  rw [show h.hy + (0 : Int) = h.hy from add_zero _, show h.hm + (0 : Int) = h.hm from add_zero _]
  rw [normalizeYm_eq_self h.hy h.hm hm1 hm2]
  dsimp only
  rw [min_eq_left hd2]
  unfold fromHijri
  rw [g1]
  norm_num

/-- Witness for C7: zero-duration addition at `tinyEngine` on 2023-03-23
(lunar 1444-09-01) returns 2023-03-23. -/
theorem dateAdd_zero_identity_c7_witness :
    dateAdd tinyEngine ⟨2023, 3, 23⟩ ⟨0, 0, 0, 0⟩ none = .ok ⟨2023, 3, 23⟩ :=
  dateAdd_zero_identity_c7 tinyEngine ⟨2023, 3, 23⟩ ⟨1444, 9, 1⟩ (by rfl) (by decide)
    (by decide) (by decide) (by decide)

end HijriCalendar

namespace HijriCalendar

/-- C4: for in-domain dates with lunar coordinates `h1` (start) and `h2`
(end) and `largestUnit` years or months, `dateUntil` computes the
component-wise lunar differences; when the day difference is negative it
decrements months and adds the length of the lunar month immediately
preceding the end's month, borrowed in the end date's calendar context
(month 1 borrowing month 12 of the previous year); when months is then
negative it decrements years and adds 12; the years variant returns
`(years, months, 0, days)` and the months variant `(0, years*12+months, 0,
days)`. -/
theorem dateUntil_years_months_c4 (e : CalendarEngine) (one two : PlainDate)
    (h1 h2 : HijriDate)
    (years months days borrowHy borrowHm months2 days2 years3 months3 : Int)
    (ht1 : toHijri e one = .ok h1) (ht2 : toHijri e two = .ok h2)
    (hyr : years = h2.hy - h1.hy)
    (hmo : months = h2.hm - h1.hm)
    (hda : days = h2.hd - h1.hd)
    (hby : borrowHy = (if h2.hm - 1 < 1 then h2.hy - 1 else h2.hy))
    (hbm : borrowHm = (if h2.hm - 1 < 1 then 12 else h2.hm - 1))
    (hmo2 : months2 = (if days < 0 then months - 1 else months))
    (hda2 : days2 = (if days < 0 then days + e.daysInMonth borrowHy borrowHm else days))
    (hyr3 : years3 = (if months2 < 0 then years - 1 else years))
    (hmo3 : months3 = (if months2 < 0 then months2 + 12 else months2)) :
    dateUntil e one two (some .years) = .ok ⟨years3, months3, 0, days2⟩ ∧
      dateUntil e one two (some .months) = .ok ⟨0, years3 * 12 + months3, 0, days2⟩ := by
  subst hyr hmo hda hby hbm hmo2 hda2 hyr3 hmo3
  constructor <;>
    · unfold dateUntil
      simp only [Option.getD, ht1, ht2]
      split_ifs <;> simp_all

/-- Witness for C4 at `tinyEngine`: from 2023-04-21 (lunar 1444-09-30) to
2023-04-22 (lunar 1444-10-01) the raw day difference is −29; borrowing the
30 days of month 9 of 1444 (the end's context) yields 0 months, 1 day. -/
theorem dateUntil_years_months_c4_witness :
    dateUntil tinyEngine ⟨2023, 4, 21⟩ ⟨2023, 4, 22⟩ (some .years) = .ok ⟨0, 0, 0, 1⟩ ∧
      dateUntil tinyEngine ⟨2023, 4, 21⟩ ⟨2023, 4, 22⟩ (some .months) = .ok ⟨0, 0 * 12 + 0, 0, 1⟩ :=
  dateUntil_years_months_c4 tinyEngine ⟨2023, 4, 21⟩ ⟨2023, 4, 22⟩
    ⟨1444, 9, 30⟩ ⟨1444, 10, 1⟩ 0 1 (-29) 1444 9 0 1 0 0
    (by rfl) (by rfl) (by decide) (by decide) (by decide) (by decide) (by decide)
    (by decide) (by decide) (by decide) (by decide)

/-- Counterexample for C5: the claim derives "the sum is always 354 or 355"
from the engine contract that each month length is 29 or 30 alone; the
engine `allShortEngine` meets that contract (every month is 29 days) yet
its year sums to 348 days, which is neither 354 nor 355. -/
theorem daysInYear_not_354_355_c5_counterexample :
    (allShortEngine.daysInMonth 1444 1 = 29 ∨ allShortEngine.daysInMonth 1444 1 = 30) ∧
      daysInYear allShortEngine ⟨2023, 3, 23⟩ = .ok 348 ∧
      daysInYear allShortEngine ⟨2023, 3, 23⟩ ≠ .ok 354 ∧
      daysInYear allShortEngine ⟨2023, 3, 23⟩ ≠ .ok 355 := by
  have h348 : daysInYear allShortEngine ⟨2023, 3, 23⟩ = .ok 348 := rfl
  refine ⟨Or.inl rfl, h348, fun hc => ?_, fun hc => ?_⟩
  · rw [h348] at hc
    exact absurd (Except.ok.inj hc) (by decide)
  · rw [h348] at hc
    exact absurd (Except.ok.inj hc) (by decide)

/-- C5 (amended): `daysInYear` equals the sum of `engine.daysInMonth(year,
m)` for `m` in 1..12; given the engine contract that each month length is
29 or 30, that sum lies between 348 and 360 (it is 354 or 355 only for the
month-length patterns real Hijri engines produce, with six or seven 30-day
months — not for every 29/30 engine); `inLeapYear` is true exactly when the
sum is 355. -/
theorem daysInYear_sum_bounds_c5 (e : CalendarEngine) (d : PlainDate) (h : HijriDate)
    (ht : toHijri e d = .ok h)
    (hlen : ∀ m : Nat, m < 12 →
      e.daysInMonth h.hy ((m : Int) + 1) = 29 ∨ e.daysInMonth h.hy ((m : Int) + 1) = 30) :
    daysInYear e d = .ok (monthsSum e h.hy 12) ∧
      348 ≤ monthsSum e h.hy 12 ∧ monthsSum e h.hy 12 ≤ 360 ∧
      (inLeapYear e d = .ok true ↔ monthsSum e h.hy 12 = 355) := by
  have hb := monthsSum_bounds e h.hy 12 hlen
  have hdy : daysInYear e d = .ok (monthsSum e h.hy 12) := by
    simp [daysInYear, ht, Except.map]
  refine ⟨hdy, by push_cast at hb; omega, by push_cast at hb; omega, ?_⟩
  rw [inLeapYear, hdy]
  simp [Except.map, beq_iff_eq]

/-- Witness for C5 (amended) at `tinyEngine`, whose year 1444 has six
30-day and six 29-day months, totalling 354. -/
theorem daysInYear_sum_bounds_c5_witness :
    daysInYear tinyEngine ⟨2023, 3, 23⟩ = .ok (monthsSum tinyEngine 1444 12) ∧
      348 ≤ monthsSum tinyEngine 1444 12 ∧ monthsSum tinyEngine 1444 12 ≤ 360 ∧
      (inLeapYear tinyEngine ⟨2023, 3, 23⟩ = .ok true ↔ monthsSum tinyEngine 1444 12 = 355) :=
  daysInYear_sum_bounds_c5 tinyEngine ⟨2023, 3, 23⟩ ⟨1444, 9, 1⟩ (by rfl) (by decide)

/-- C6: for an in-domain date whose lunar coordinate has month in `[1,12]`,
day at least 1 and day within the month's engine-reported length (the
forward-conversion invariant), `dayOfYear` is the sum of the month lengths
before the current month plus the day-of-month, and lies between 1 and
`daysInYear`. -/
theorem dayOfYear_bounds_c6 (e : CalendarEngine) (d : PlainDate) (h : HijriDate)
    (ht : toHijri e d = .ok h)
    (hm1 : 1 ≤ h.hm) (hm2 : h.hm ≤ 12)
    (hd1 : 1 ≤ h.hd) (hd2 : h.hd ≤ e.daysInMonth h.hy h.hm)
    (hlen : ∀ m : Nat, m < 12 →
      e.daysInMonth h.hy ((m : Int) + 1) = 29 ∨ e.daysInMonth h.hy ((m : Int) + 1) = 30) :
    dayOfYear e d = .ok (h.hd + monthsSum e h.hy (h.hm - 1).toNat) ∧
      daysInYear e d = .ok (monthsSum e h.hy 12) ∧
      1 ≤ h.hd + monthsSum e h.hy (h.hm - 1).toNat ∧
      h.hd + monthsSum e h.hy (h.hm - 1).toNat ≤ monthsSum e h.hy 12 := by
  have hpos : ∀ m : Nat, m < 12 → 0 ≤ e.daysInMonth h.hy ((m : Int) + 1) := by
    intro m hm
    rcases hlen m hm with h29 | h30 <;> omega
  set k := (h.hm - 1).toNat with hk
  have hk12 : k + 1 ≤ 12 := by omega
  have hmono0 : monthsSum e h.hy 0 ≤ monthsSum e h.hy k :=
    monthsSum_le e h.hy 0 k (Nat.zero_le k) (fun m hm => hpos m (by omega))
  have h0 : monthsSum e h.hy 0 = 0 := rfl
  have hstep : monthsSum e h.hy (k + 1) = monthsSum e h.hy k + e.daysInMonth h.hy ((k : Int) + 1) := rfl
  have hmeq : (k : Int) + 1 = h.hm := by omega
  have hmono : monthsSum e h.hy (k + 1) ≤ monthsSum e h.hy 12 :=
    monthsSum_le e h.hy (k + 1) 12 hk12 hpos
  rw [hmeq] at hstep
  have hdoy : dayOfYear e d = .ok (h.hd + monthsSum e h.hy k) := by
    unfold dayOfYear
    rw [ht]
    rfl
  have hdiy : daysInYear e d = .ok (monthsSum e h.hy 12) := by
    unfold daysInYear
    rw [ht]
    rfl
  refine ⟨hdoy, hdiy, by omega, by omega⟩

/-- Witness for C6 at `tinyEngine` on 2023-03-23 (lunar 1444-09-01): day of
year 1 + 236 = 237, within 1..354. -/
theorem dayOfYear_bounds_c6_witness :
    dayOfYear tinyEngine ⟨2023, 3, 23⟩ =
        .ok (1 + monthsSum tinyEngine 1444 (((9 : Int) - 1).toNat)) ∧
      daysInYear tinyEngine ⟨2023, 3, 23⟩ = .ok (monthsSum tinyEngine 1444 12) ∧
      (1 : Int) ≤ 1 + monthsSum tinyEngine 1444 (((9 : Int) - 1).toNat) ∧
      1 + monthsSum tinyEngine 1444 (((9 : Int) - 1).toNat) ≤ monthsSum tinyEngine 1444 12 :=
  dayOfYear_bounds_c6 tinyEngine ⟨2023, 3, 23⟩ ⟨1444, 9, 1⟩ (by rfl) (by decide)
    (by decide) (by decide) (by decide) (by decide)

end HijriCalendar
